import Mathlib

/-!
Verification of the data-shaping and posterior-decomposition logic of
`RunStan` in `regression_pystan_model2_corr_cells_unbounded_hyp.py`.

Numeric values (residuals, coordinates, distances, posterior draws, raw
group keys) are embedded as exact rationals `ℚ`; the quantities the code
obtains with `np.sqrt` are embedded in `ℝ` via `Real.sqrt`.  Matrices are
total functions on `Fin`-typed index sets; pandas tables whose row lookup
can miss are association lists with `Option`-valued lookup (a missing row,
which pandas fills with NaN, is `none`).
-/

namespace NGMM

/-- Arithmetic mean of a list of draws (`np.mean` / `pd.Series.mean`):
sum divided by length (0 on the empty list, as `ℚ` division by zero). -/
def mean (xs : List ℚ) : ℚ := xs.sum / xs.length

/-- Median of a list of draws (`pd.Series.median`): middle order statistic,
or the average of the two middle order statistics for even length. -/
def median (xs : List ℚ) : ℚ :=
  let s := xs.insertionSort (· ≤ ·)
  if xs.length % 2 = 1 then s.getD (xs.length / 2) 0
  else (s.getD (xs.length / 2 - 1) 0 + s.getD (xs.length / 2) 0) / 2

/-- Sample variance with one delta degree of freedom
(`pd.Series.std` squared, ddof = 1). -/
def variance (xs : List ℚ) : ℚ :=
  (xs.map (fun x => (x - mean xs) ^ 2)).sum / ((xs.length : ℚ) - 1)

/-! ## Index Builder

`np.unique(keys, return_index=True, return_inverse=True)`
(source lines 102 and 111): the deduplicated key list is SORTED
ascending; `inv` maps each record to the position of its key in that
sorted list; `idx` maps each group to the first occurrence of its key
in the original row order. -/

/-- The deduplicated array returned by `np.unique`: the distinct keys in
ascending order. -/
def npUnique {α : Type} [LinearOrder α] (xs : List α) : List α :=
  xs.dedup.insertionSort (· ≤ ·)

/-- Field `return_inverse`: for record `i`, the 0-based position of its key in
`npUnique xs` (the group index `eq_inv` / `sta_inv` of the source). -/
def npUniqueInv {α : Type} [LinearOrder α] (xs : List α) (i : Fin xs.length) : ℕ :=
  (npUnique xs).indexOf (xs.get i)

/-- Field `return_index`: for group `j`, the row of the first occurrence of the
`j`-th unique key in the original order (`eq_idx` / `sta_idx`). -/
def npUniqueIdx {α : Type} [LinearOrder α] [Inhabited α] (xs : List α) (j : ℕ) : ℕ :=
  xs.indexOf ((npUnique xs).getD j default)

/-- Modelled from the spec: "a deduplicated list of group keys in order of
first occurrence" — the deduplication the spec describes, keeping each
key at its first appearance in row order.  Used only to compare the
spec's claimed ordering with the one the source actually produces. -/
def dedupFirst {α : Type} [DecidableEq α] (xs : List α) : List α :=
  xs.foldl (fun acc a => if a ∈ acc then acc else acc ++ [a]) []

/-! ## Cell Network Filter (source lines 130–133) -/

/-- Column sum of the full records × cells distance matrix
(`celldist_all.sum(axis=0)`). -/
def colSum {n m : ℕ} (D : Fin n → Fin m → ℚ) (c : Fin m) : ℚ :=
  ∑ i, D i c

/-- Source `i_cells_valid = np.where(celldist_all.sum(axis=0) > 0)[0]`:
the positions of the cells whose total path distance over all records is
strictly positive, in ascending column order. -/
def i_cells_valid {n m : ℕ} (D : Fin n → Fin m → ℚ) : List (Fin m) :=
  (List.finRange m).filter (fun c => decide (0 < colSum D c))

/-! ## Input preprocessing (source lines 89–95)

`df.set_index(key, drop=True, inplace=True)` guarded by
`if not df.index.name == key`.  `inplace=True` rewrites the caller's
dataframe object, so the preprocessing step is modelled as a function from
the caller-visible table state to the caller-visible table state after the
call. -/

/-- A pandas dataframe as the caller sees it: the name of its index (if
any), the index values, and its named columns. -/
structure PDFrame where
  indexName : Option String
  indexVals : List ℚ
  cols : List (String × List ℚ)
deriving DecidableEq

/-- Source `df.set_index(key, drop=True, inplace=True)`: the column named `key`
becomes the index and is dropped from the columns. -/
def setIndexInplace (key : String) (df : PDFrame) : PDFrame :=
  { indexName := some key
    indexVals := ((df.cols.find? (fun p => p.1 == key)).map Prod.snd).getD []
    cols := df.cols.filter (fun p => !(p.1 == key)) }

/-- Lines 89–95: set the key column as index unless the index already has
that name; on the not-already-indexed branch the caller's table is
mutated in place. -/
def preprocessByKey (key : String) (df : PDFrame) : PDFrame :=
  if df.indexName = some key then df else setIndexInplace key df

/-! ## Cell-distance alignment and payload assembly (lines 122, 142–155)

`df_celldist = df_celldist.reindex(df_flatfile.index)`: pandas `reindex`
keeps, for each record key of the flatfile, the matching distance row when
present and otherwise inserts a row of NaN (modelled `none`); it never
raises on a missing key. -/

/-- Source `df_celldist.reindex(keys)` row by row: association-list lookup by
record key; a key absent from the table yields the NaN row `none`. -/
def reindexRows (tbl : List (ℚ × List ℚ)) (keys : List ℚ) : List (Option (List ℚ)) :=
  keys.map (fun k => (tbl.find? (fun p => p.1 == k)).map Prod.snd)

/-- The model payload `stan_data` (lines 142–155), restricted to the
fields the alignment claims concern: the record count `N`, the
records × valid-cells distance matrix rows `RC` (a row is `none` when the
record's key was absent from the distance table, i.e. a NaN row), and the
observation vector `Y`. -/
structure StanData where
  N : ℕ
  RC : List (Option (List ℚ))
  Y : List ℚ
deriving DecidableEq

/-- Payload assembly after the reindex step: total — it builds a payload
whatever the overlap between the flatfile keys and the distance-table
keys. -/
def buildStanData (flatKeys : List ℚ) (y : List ℚ)
    (celldist : List (ℚ × List ℚ)) : StanData :=
  { N := flatKeys.length
    RC := reindexRows celldist flatKeys
    Y := y }

/-! ## Posterior Extractor (source lines 212–243) -/

/-- Source `col_names_hyp` (lines 213–215): the 12 global hyperparameters, in
source order. -/
def colNamesHyp : List String :=
  ["dc_0", "ell_1e", "ell_1as", "omega_1e", "omega_1as", "omega_1bs",
   "mu_cap", "ell_ca1p", "omega_ca1p", "omega_ca2p", "phi_0", "tau_0"]

/-- The axis-1 column slices of a draws × groups matrix, in group order:
what `np.concatenate(..., axis=1)` appends. -/
def colsOf {d g : ℕ} (M : Fin d → Fin g → ℚ) : List (Fin d → ℚ) :=
  (List.finRange g).map (fun j => fun i => M i j)

/-- Transpose `.T` on a groups × draws array. -/
def transposeM {g d : ℕ} (M : Fin g → Fin d → ℚ) : Fin d → Fin g → ℚ :=
  fun i j => M j i

/-- A pystan-2 fit object: named scalar draw vectors, and per-group
sample matrices with draws as the leading axis. -/
structure StanFitV2 (d neq nsta ncl : ℕ) where
  scalar : String → Fin d → ℚ
  dc_1e : Fin d → Fin neq → ℚ
  dc_1as : Fin d → Fin nsta → ℚ
  dc_1bs : Fin d → Fin nsta → ℚ
  c_cap : Fin d → Fin ncl → ℚ
  dB : Fin d → Fin neq → ℚ

/-- A pystan-3 fit object: per-group sample matrices with groups as the
leading axis (hence the `.T` in lines 235–239). -/
structure StanFitV3 (d neq nsta ncl : ℕ) where
  scalar : String → Fin d → ℚ
  dc_1e : Fin neq → Fin d → ℚ
  dc_1as : Fin nsta → Fin d → ℚ
  dc_1bs : Fin nsta → Fin d → ℚ
  c_cap : Fin ncl → Fin d → ℚ
  dB : Fin neq → Fin d → ℚ

/-- Matrix `stan_posterior` for pystan 2 (lines 226–233), as its list of columns:
the 12 hyperparameter draw vectors in `colNamesHyp` order, then the
columns of `dc_1e`, `dc_1as`, `dc_1bs`, `c_cap`, `dB`. -/
def stanPosteriorV2 {d neq nsta ncl : ℕ} (fit : StanFitV2 d neq nsta ncl) :
    List (Fin d → ℚ) :=
  colNamesHyp.map fit.scalar ++ colsOf fit.dc_1e ++ colsOf fit.dc_1as
    ++ colsOf fit.dc_1bs ++ colsOf fit.c_cap ++ colsOf fit.dB

/-- Matrix `stan_posterior` for pystan 3 (lines 226, 235–239): identical layout,
with every per-group array transposed before concatenation. -/
def stanPosteriorV3 {d neq nsta ncl : ℕ} (fit : StanFitV3 d neq nsta ncl) :
    List (Fin d → ℚ) :=
  colNamesHyp.map fit.scalar
    ++ colsOf (transposeM fit.dc_1e) ++ colsOf (transposeM fit.dc_1as)
    ++ colsOf (transposeM fit.dc_1bs) ++ colsOf (transposeM fit.c_cap)
    ++ colsOf (transposeM fit.dB)

/-! ## Coefficient Synthesizer and Residual Decomposer
(source lines 269–278, 294–321, 358–365)

The per-group posterior draw columns of `df_stan_posterior_raw`
(`dc_0`, `dc_1e.k`, `dc_1as.k`, `dc_1bs.k`, `c_cap.k`, `dB.k`), the
0-based inverse indices `eq_inv` / `sta_inv`, the valid-cell distance
matrix `RC = celldist_valid` and the observations `y` are the inputs of
the postprocessing stage; they are bundled in one context. -/

structure PosteriorCtx (n neq nsta ncl : ℕ) where
  y : Fin n → ℚ
  eq_inv : Fin n → Fin neq
  sta_inv : Fin n → Fin nsta
  RC : Fin n → Fin ncl → ℚ
  dc_0 : List ℚ
  dc_1e : Fin neq → List ℚ
  dc_1as : Fin nsta → List ℚ
  dc_1bs : Fin nsta → List ℚ
  c_cap : Fin ncl → List ℚ
  dB : Fin neq → List ℚ

/-- NumPy fancy indexing `group_values[inv]` (e.g. line 301
`coeff_1e_mu = coeff_1e_mu[eq_inv]`): broadcast one value per group to
every record of that group, in record order. -/
def broadcast {G n : ℕ} (vals : Fin G → ℚ) (inv : Fin n → Fin G) : Fin n → ℚ :=
  fun r => vals (inv r)

/-- Matrix–vector product `D @ v` over `ℚ` (NumPy `@`). -/
def matvec {n m : ℕ} (D : Fin n → Fin m → ℚ) (v : Fin m → ℚ) : Fin n → ℚ :=
  fun r => ∑ c, D r c * v c

/-- Matrix–vector product `D @ v` over `ℝ`. -/
def matvecR {n m : ℕ} (D : Fin n → Fin m → ℝ) (v : Fin m → ℝ) : Fin n → ℝ :=
  fun r => ∑ c, D r c * v c

variable {n neq nsta ncl : ℕ}

/-- Line 295: `coeff_0_mu = mean(dc_0) * np.ones(n_data)`. -/
def coeff_0_mu (ctx : PosteriorCtx n neq nsta ncl) : Fin n → ℚ :=
  fun _ => mean ctx.dc_0

/-- Lines 300–301: per-earthquake posterior means broadcast by `eq_inv`. -/
def coeff_1e_mu (ctx : PosteriorCtx n neq nsta ncl) : Fin n → ℚ :=
  broadcast (fun k => mean (ctx.dc_1e k)) ctx.eq_inv

/-- Lines 308–309: per-station (type 1) posterior means broadcast by
`sta_inv`. -/
def coeff_1as_mu (ctx : PosteriorCtx n neq nsta ncl) : Fin n → ℚ :=
  broadcast (fun k => mean (ctx.dc_1as k)) ctx.sta_inv

/-- Lines 316–317: per-station (type 2) posterior means broadcast by
`sta_inv`. -/
def coeff_1bs_mu (ctx : PosteriorCtx n neq nsta ncl) : Fin n → ℚ :=
  broadcast (fun k => mean (ctx.dc_1bs k)) ctx.sta_inv

/-- Line 271: per-valid-cell posterior means of `c_cap`. -/
def cells_ca_mu (ctx : PosteriorCtx n neq nsta ncl) : Fin ncl → ℚ :=
  fun c => mean (ctx.c_cap c)

/-- Line 272: per-valid-cell posterior medians of `c_cap`. -/
def cells_ca_med (ctx : PosteriorCtx n neq nsta ncl) : Fin ncl → ℚ :=
  fun c => median (ctx.c_cap c)

/-- Line 273: per-valid-cell posterior standard deviations of `c_cap`
(`pd.Series.std`, the square root of the ddof-1 sample variance). -/
noncomputable def cells_ca_sig (ctx : PosteriorCtx n neq nsta ncl) : Fin ncl → ℝ :=
  fun c => Real.sqrt (variance (ctx.c_cap c))

/-- Line 276: `cells_LcA_mu = celldist_valid.values @ cells_ca_mu`. -/
def cells_LcA_mu (ctx : PosteriorCtx n neq nsta ncl) : Fin n → ℚ :=
  matvec ctx.RC (cells_ca_mu ctx)

/-- Line 277: `cells_LcA_med = celldist_valid.values @ cells_ca_med`. -/
def cells_LcA_med (ctx : PosteriorCtx n neq nsta ncl) : Fin n → ℚ :=
  matvec ctx.RC (cells_ca_med ctx)

/-- Line 278:
`cells_LcA_sig = np.sqrt(np.square(celldist_valid.values) @ cells_ca_sig**2)`. -/
noncomputable def cells_LcA_sig (ctx : PosteriorCtx n neq nsta ncl) : Fin n → ℝ :=
  fun r => Real.sqrt
    (matvecR (fun i c => ((ctx.RC i c : ℝ)) ^ 2)
             (fun c => cells_ca_sig ctx c ^ 2) r)

/-- Line 358: the combined mean prediction
`y_mu = coeff_0_mu + coeff_1e_mu + coeff_1as_mu + coeff_1bs_mu + cells_LcA_mu`. -/
def y_mu (ctx : PosteriorCtx n neq nsta ncl) : Fin n → ℚ :=
  fun r => coeff_0_mu ctx r + coeff_1e_mu ctx r + coeff_1as_mu ctx r
    + coeff_1bs_mu ctx r + cells_LcA_mu ctx r

/-- Line 361: total residual `res_tot = y_data - y_mu`. -/
def res_tot (ctx : PosteriorCtx n neq nsta ncl) : Fin n → ℚ :=
  fun r => ctx.y r - y_mu ctx r

/-- Lines 363–364: inter-event residual — the posterior mean of each
earthquake's random effect `dB`, broadcast to its records by `eq_inv`. -/
def res_between (ctx : PosteriorCtx n neq nsta ncl) : Fin n → ℚ :=
  fun r => mean (ctx.dB (ctx.eq_inv r))

/-- Line 365: intra-event residual `res_within = res_tot - res_between`. -/
def res_within (ctx : PosteriorCtx n neq nsta ncl) : Fin n → ℚ :=
  fun r => res_tot ctx r - res_between ctx r

/-! ## Valid-cell coordinates (source lines 124–138)

`cell_names_all = df_cellinfo.cellname` fixes the column order of
`celldist_all = df_celldist[cell_names_all]`, so column `j` of the
distance matrix corresponds to row `j` of `df_cellinfo`; a cellinfo row
carries its index label `cellid` and the midpoint coordinates. -/

structure CellRow where
  cellid : ℕ
  mptX : ℚ
  mptY : ℚ
deriving DecidableEq

/-- Source `df_cellinfo.loc[label, ['mptX','mptY']]`: LABEL-based lookup in the
`cellid` index (first row whose `cellid` equals the label); a label
matching no row is a pandas `KeyError`, modelled `none`. -/
def locMpt (rows : List CellRow) (label : ℕ) : Option (ℚ × ℚ) :=
  (rows.find? (fun r => r.cellid == label)).map (fun r => (r.mptX, r.mptY))

/-- Line 131: `cell_ids_valid = cell_ids_all[i_cells_valid]` — POSITIONAL
indexing of the `cellid` index by the valid-cell positions. -/
def cell_ids_valid (rows : List CellRow) {k : ℕ} (D : Fin k → Fin rows.length → ℚ) :
    List ℕ :=
  (i_cells_valid D).map (fun j => (rows.get j).cellid)

/-- Line 138: `X_cells_valid = df_cellinfo.loc[i_cells_valid, ['mptX','mptY']].values`
— the POSITIONAL indices `i_cells_valid` are used as index LABELS. -/
def X_cells_valid (rows : List CellRow) {k : ℕ} (D : Fin k → Fin rows.length → ℚ) :
    List (Option (ℚ × ℚ)) :=
  (i_cells_valid D).map (fun j => locMpt rows j.val)

/-! ## Concrete example inputs

Small instances used to instantiate the theorems below on explicit
data. -/

/-- A distance table holding only the record with key 1 (its single valid
cell has distance 5); record key 2 is absent. -/
def exCelldist : List (ℚ × List ℚ) := [(1, [5])]

/-- A flatfile whose index is not yet `rsn`: it still carries `rsn` as an
ordinary column. -/
def exFlatfile : PDFrame :=
  { indexName := none
    indexVals := [0, 1]
    cols := [("rsn", [100, 101]), ("res", [3, 4])] }

/-- A cell-metadata table whose `cellid` labels are 0-based positions. -/
def exCellRowsAligned : List CellRow :=
  [{ cellid := 0, mptX := 10, mptY := 11 }, { cellid := 1, mptX := 20, mptY := 21 }]

/-- A cell-metadata table whose `cellid` labels do NOT match the rows'
0-based positions (they are swapped). -/
def exCellRowsSwapped : List CellRow :=
  [{ cellid := 1, mptX := 10, mptY := 11 }, { cellid := 0, mptX := 20, mptY := 21 }]

/-- One record with distance 1 through both cells of the aligned table. -/
def exDistAligned : Fin 1 → Fin (exCellRowsAligned.length) → ℚ := fun _ _ => 1

/-- One record with distance 1 through both cells of the swapped table. -/
def exDistSwapped : Fin 1 → Fin (exCellRowsSwapped.length) → ℚ := fun _ _ => 1

/-- One record, two cells: the first cell carries distance 1, the second
distance 0. -/
def exDistC4 : Fin 1 → Fin 2 → ℚ := fun _ c => if c = 0 then 1 else 0

/-- A one-draw, one-group-each pystan-2 fit object. -/
def exFit2 : StanFitV2 1 1 1 1 :=
  { scalar := fun _ _ => 0
    dc_1e := fun _ _ => 1
    dc_1as := fun _ _ => 2
    dc_1bs := fun _ _ => 3
    c_cap := fun _ _ => 4
    dB := fun _ _ => 5 }

/-- The pystan-3 fit object storing the same posterior as `exFit2`, with
per-group arrays in groups-leading orientation. -/
def exFit3 : StanFitV3 1 1 1 1 :=
  { scalar := exFit2.scalar
    dc_1e := transposeM exFit2.dc_1e
    dc_1as := transposeM exFit2.dc_1as
    dc_1bs := transposeM exFit2.dc_1bs
    c_cap := transposeM exFit2.c_cap
    dB := transposeM exFit2.dB }

/-! ## Theorems -/

/-- Membership in the deduplicated sorted key list is membership in the
original key column. -/
theorem mem_npUnique {α : Type} [LinearOrder α] {a : α} {xs : List α} :
    a ∈ npUnique xs ↔ a ∈ xs := by
  unfold npUnique
  rw [(List.perm_insertionSort _ _).mem_iff, List.mem_dedup]

/-- The deduplicated sorted key list has no duplicates. -/
theorem nodup_npUnique {α : Type} [LinearOrder α] (xs : List α) :
    (npUnique xs).Nodup :=
  ((List.perm_insertionSort _ _).nodup_iff).mpr xs.nodup_dedup

/-- C2: every record's group index lies in `[0, n_groups)`; two records
with the same raw key receive the same group index; records with distinct
keys receive distinct indices; and every index in `[0, n_groups)` is used
by some record (density). -/
theorem c2_group_indices {α : Type} [LinearOrder α] (xs : List α) :
    (∀ i : Fin xs.length, npUniqueInv xs i < (npUnique xs).length) ∧
    (∀ i j : Fin xs.length, xs.get i = xs.get j →
      npUniqueInv xs i = npUniqueInv xs j) ∧
    (∀ i j : Fin xs.length, xs.get i ≠ xs.get j →
      npUniqueInv xs i ≠ npUniqueInv xs j) ∧
    (∀ g : Fin (npUnique xs).length, ∃ i : Fin xs.length, npUniqueInv xs i = g) := by
  have hmem : ∀ i : Fin xs.length, xs.get i ∈ npUnique xs := fun i =>
    mem_npUnique.mpr (xs.get_mem i.1 i.2)
  refine ⟨fun i => List.indexOf_lt_length.mpr (hmem i),
    fun i j h => ?_, fun i j h hc => ?_, fun g => ?_⟩
  · unfold npUniqueInv
    rw [h]
  · exact h ((List.indexOf_inj (hmem i) (hmem j)).mp hc)
  · obtain ⟨i, hi⟩ := List.mem_iff_get.mp
      (mem_npUnique.mp (List.get_mem (npUnique xs) g.1 g.2))
    refine ⟨i, ?_⟩
    unfold npUniqueInv
    rw [hi]
    exact List.get_indexOf (nodup_npUnique xs) g

/-- Witness for C2 on the key column `[5, 3, 5]`: records 0 and 2 share a
key and share a group index, records 0 and 1 have distinct keys and
distinct group indices. -/
theorem c2_group_indices_witness :
    npUniqueInv [(5:ℚ), 3, 5] ⟨0, by decide⟩ = npUniqueInv [(5:ℚ), 3, 5] ⟨2, by decide⟩ ∧
    npUniqueInv [(5:ℚ), 3, 5] ⟨0, by decide⟩ ≠ npUniqueInv [(5:ℚ), 3, 5] ⟨1, by decide⟩ :=
  ⟨(c2_group_indices [(5:ℚ), 3, 5]).2.1 _ _ (by decide),
   (c2_group_indices [(5:ℚ), 3, 5]).2.2.1 _ _ (by decide)⟩

/-- C3, counterexample: on the key column `[2, 1]` the list `np.unique`
returns is `[1, 2]` (ascending key order), while the order of first
occurrence is `[2, 1]` — the two orderings differ, so the deduplicated
key list is not ordered by first occurrence. -/
theorem c3_first_occurrence_cex :
    npUnique [(2:ℚ), 1] = [1, 2] ∧ dedupFirst [(2:ℚ), 1] = [2, 1] ∧
    npUnique [(2:ℚ), 1] ≠ dedupFirst [(2:ℚ), 1] :=
  ⟨by decide, by decide, by decide⟩

/-- C3 (amended): the deduplicated list of group keys (and hence the
group-index assignment and the row order of the coordinate matrices) is
ordered by ascending key value; it contains exactly the distinct keys,
and each group's representative row (`eq_idx` / `sta_idx`) is the FIRST
occurrence of that group's key in the record table's row order. -/
theorem c3_sorted_dedup_amended {α : Type} [LinearOrder α] [Inhabited α] (xs : List α) :
    (npUnique xs).Sorted (· ≤ ·) ∧ (npUnique xs).Nodup ∧
    (∀ a, a ∈ npUnique xs ↔ a ∈ xs) ∧
    (∀ j : Fin (npUnique xs).length,
      ∃ h : npUniqueIdx xs j < xs.length,
        xs.get ⟨npUniqueIdx xs j, h⟩ = (npUnique xs).get j ∧
        ∀ i : Fin xs.length, (i : ℕ) < npUniqueIdx xs j →
          xs.get i ≠ (npUnique xs).get j) := by
  refine ⟨List.sorted_insertionSort _ _, nodup_npUnique xs,
    fun _ => mem_npUnique, fun j => ?_⟩
  have hgd : (npUnique xs).getD (j : ℕ) default = (npUnique xs).get j := by
    rw [List.getD_eq_getElem?_getD, List.getElem?_eq_getElem j.2]
    simp [List.get_eq_getElem]
  have hmem : (npUnique xs).get j ∈ xs :=
    mem_npUnique.mp (List.get_mem (npUnique xs) j.1 j.2)
  have hlt : npUniqueIdx xs j < xs.length := by
    unfold npUniqueIdx
    rw [hgd]
    exact List.indexOf_lt_length.mpr hmem
  refine ⟨hlt, ?_, ?_⟩
  · have hg := List.indexOf_get (a := (npUnique xs).get j) (l := xs)
      (List.indexOf_lt_length.mpr hmem)
    simp only [npUniqueIdx, hgd]
    exact hg
  · intro i hi heq
    have hi' : (i : ℕ) < xs.indexOf ((npUnique xs).get j) := by
      simpa [npUniqueIdx, hgd] using hi
    have hne : ¬ (xs.get i == (npUnique xs).get j) = true := by
      simp only [List.indexOf] at hi'
      have hf := @List.not_of_lt_findIdx _ (· == (npUnique xs).get j) xs i hi'
      simpa [List.get_eq_getElem] using hf
    exact hne (by simpa using heq)

/-- Witness for C3's amended statement on the key column `[2, 1]`. -/
theorem c3_sorted_dedup_amended_witness :
    (npUnique [(2:ℚ), 1]).Sorted (· ≤ ·) ∧ (npUnique [(2:ℚ), 1]).Nodup ∧
    (∀ a, a ∈ npUnique [(2:ℚ), 1] ↔ a ∈ [(2:ℚ), 1]) ∧
    (∀ j : Fin (npUnique [(2:ℚ), 1]).length,
      ∃ h : npUniqueIdx [(2:ℚ), 1] j < ([(2:ℚ), 1]).length,
        ([(2:ℚ), 1]).get ⟨npUniqueIdx [(2:ℚ), 1] j, h⟩ = (npUnique [(2:ℚ), 1]).get j ∧
        ∀ i : Fin ([(2:ℚ), 1]).length, (i : ℕ) < npUniqueIdx [(2:ℚ), 1] j →
          ([(2:ℚ), 1]).get i ≠ (npUnique [(2:ℚ), 1]).get j) :=
  c3_sorted_dedup_amended [(2:ℚ), 1]

/-- C1: for every record, the residual decomposition satisfies
total = inter-event + intra-event, where the total residual is the
observed residual minus the combined mean prediction, the inter-event
residual is the per-earthquake posterior-mean random effect broadcast to
the record, and the intra-event residual is their difference. -/
theorem c1_residual_decomposition {n neq nsta ncl : ℕ}
    (ctx : PosteriorCtx n neq nsta ncl) (r : Fin n) :
    res_tot ctx r = res_between ctx r + res_within ctx r ∧
    res_tot ctx r = ctx.y r - y_mu ctx r ∧
    res_between ctx r = mean (ctx.dB (ctx.eq_inv r)) ∧
    res_within ctx r = res_tot ctx r - res_between ctx r := by
  refine ⟨?_, rfl, rfl, rfl⟩
  unfold res_within
  ring

/-- C4: the Cell Network Filter selects exactly the cell columns whose
total path distance summed over all records is strictly positive, and the
retained columns keep their original (strictly increasing) relative
order. -/
theorem c4_cell_filter_exact {n m : ℕ} (D : Fin n → Fin m → ℚ) :
    (∀ c : Fin m, c ∈ i_cells_valid D ↔ 0 < colSum D c) ∧
    (i_cells_valid D).Pairwise (· < ·) := by
  constructor
  · intro c
    simp [i_cells_valid, List.mem_filter, List.mem_finRange]
  · exact (List.pairwise_lt_finRange m).filter _

/-- C6: for every record, the cumulative attenuation effect's mean and
median are the distance-weighted sums of the per-valid-cell coefficient
means (resp. medians) with the record's row of the valid-cell distance
matrix as weights, and its standard deviation is the square root of the
sum over valid cells of distance² times the cell coefficient's posterior
standard deviation squared. -/
theorem c6_attenuation_effect_formulas {n neq nsta ncl : ℕ}
    (ctx : PosteriorCtx n neq nsta ncl) (r : Fin n) :
    cells_LcA_mu ctx r = ∑ c, ctx.RC r c * mean (ctx.c_cap c) ∧
    cells_LcA_med ctx r = ∑ c, ctx.RC r c * median (ctx.c_cap c) ∧
    cells_LcA_sig ctx r
      = Real.sqrt (∑ c, ((ctx.RC r c : ℝ)) ^ 2 * cells_ca_sig ctx c ^ 2) :=
  ⟨rfl, rfl, rfl⟩

/-- C5: block layout of the pooled posterior matrix — its columns
are the 12 hyperparameter draw vectors in `colNamesHyp` order, then the
per-earthquake constants, the two per-station constants, the per-valid-cell
attenuation coefficients, and the per-earthquake random effects; the same
layout results for pystan 3 after transposing each per-group array. -/
theorem c5_posterior_column_order {d neq nsta ncl : ℕ}
    (fit : StanFitV2 d neq nsta ncl) (fit3 : StanFitV3 d neq nsta ncl) :
    (stanPosteriorV2 fit).length = 12 + neq + nsta + nsta + ncl + neq ∧
    (stanPosteriorV2 fit).take 12 = colNamesHyp.map fit.scalar ∧
    ((stanPosteriorV2 fit).drop 12).take neq = colsOf fit.dc_1e ∧
    (((stanPosteriorV2 fit).drop 12).drop neq).take nsta = colsOf fit.dc_1as ∧
    ((((stanPosteriorV2 fit).drop 12).drop neq).drop nsta).take nsta
      = colsOf fit.dc_1bs ∧
    (((((stanPosteriorV2 fit).drop 12).drop neq).drop nsta).drop nsta).take ncl
      = colsOf fit.c_cap ∧
    ((((((stanPosteriorV2 fit).drop 12).drop neq).drop nsta).drop nsta).drop ncl)
      = colsOf fit.dB ∧
    (∀ (g : ℕ) (M : Fin d → Fin g → ℚ) (k : Fin g),
      (colsOf M).get? k = some (fun i => M i k)) ∧
    (fit3.dc_1e = transposeM fit.dc_1e → fit3.dc_1as = transposeM fit.dc_1as →
      fit3.dc_1bs = transposeM fit.dc_1bs → fit3.c_cap = transposeM fit.c_cap →
      fit3.dB = transposeM fit.dB → fit3.scalar = fit.scalar →
      stanPosteriorV3 fit3 = stanPosteriorV2 fit) := by
  have lenHyp : (colNamesHyp.map fit.scalar).length = 12 := by
    rw [List.length_map]
    rfl
  have lenCols : ∀ (g : ℕ) (M : Fin d → Fin g → ℚ), (colsOf M).length = g := by
    intro g M
    simp [colsOf]
  have h0 : stanPosteriorV2 fit
      = colNamesHyp.map fit.scalar ++ (colsOf fit.dc_1e ++ (colsOf fit.dc_1as
        ++ (colsOf fit.dc_1bs ++ (colsOf fit.c_cap ++ colsOf fit.dB)))) := by
    simp [stanPosteriorV2, List.append_assoc]
  have hd12 : (stanPosteriorV2 fit).drop 12
      = colsOf fit.dc_1e ++ (colsOf fit.dc_1as
        ++ (colsOf fit.dc_1bs ++ (colsOf fit.c_cap ++ colsOf fit.dB))) := by
    rw [h0, List.drop_left' lenHyp]
  have hdE : ((stanPosteriorV2 fit).drop 12).drop neq
      = colsOf fit.dc_1as ++ (colsOf fit.dc_1bs ++ (colsOf fit.c_cap ++ colsOf fit.dB)) := by
    rw [hd12, List.drop_left' (lenCols _ _)]
  have hdAs : (((stanPosteriorV2 fit).drop 12).drop neq).drop nsta
      = colsOf fit.dc_1bs ++ (colsOf fit.c_cap ++ colsOf fit.dB) := by
    rw [hdE, List.drop_left' (lenCols _ _)]
  have hdBs : ((((stanPosteriorV2 fit).drop 12).drop neq).drop nsta).drop nsta
      = colsOf fit.c_cap ++ colsOf fit.dB := by
    rw [hdAs, List.drop_left' (lenCols _ _)]
  refine ⟨?_, ?_, ?_, ?_, ?_, ?_, ?_, ?_, ?_⟩
  · rw [h0]
    simp only [List.length_append, lenHyp, lenCols]
    omega
  · rw [h0, List.take_left' lenHyp]
  · rw [hd12, List.take_left' (lenCols _ _)]
  · rw [hdE, List.take_left' (lenCols _ _)]
  · rw [hdAs, List.take_left' (lenCols _ _)]
  · rw [hdBs, List.take_left' (lenCols _ _)]
  · rw [hdBs, List.drop_left' (lenCols _ _)]
  · intro g M k
    unfold colsOf
    rw [List.get?_map, List.get?_eq_get (by simp)]
    simp [List.get_finRange]
  · intro h1 h2 h3 h4 h5 h6
    unfold stanPosteriorV3 stanPosteriorV2
    rw [h1, h2, h3, h4, h5, h6]
    rfl

/-- Witness for C5: the pooled matrix built from the pystan-3 orientation
of the one-draw fit `exFit3` equals the one built from `exFit2`. -/
theorem c5_posterior_column_order_witness :
    stanPosteriorV3 exFit3 = stanPosteriorV2 exFit2 :=
  (c5_posterior_column_order exFit2 exFit3).2.2.2.2.2.2.2.2
    rfl rfl rfl rfl rfl rfl

/-- C9: the Coefficient Synthesizer's broadcast is a deterministic pure
function of the group-level summaries and the 0-based inverse index —
equal inputs give arrays equal in values and record order — and record
`r` receives exactly its group's summary value. -/
theorem c9_broadcast_pure {G n : ℕ}
    (s₁ s₂ : Fin G → ℚ) (inv₁ inv₂ : Fin n → Fin G)
    (hs : s₁ = s₂) (hi : inv₁ = inv₂) :
    broadcast s₁ inv₁ = broadcast s₂ inv₂ ∧
    ∀ r : Fin n, broadcast s₁ inv₁ r = s₁ (inv₁ r) := by
  subst hs; subst hi; exact ⟨rfl, fun _ => rfl⟩

/-- Witness for C9 at a concrete summary vector and inverse index. -/
theorem c9_broadcast_pure_witness :
    broadcast (fun k : Fin 2 => if k = 0 then (3:ℚ) else 7)
        (fun r : Fin 3 => if r = 2 then 1 else 0)
      = broadcast (fun k : Fin 2 => if k = 0 then (3:ℚ) else 7)
        (fun r : Fin 3 => if r = 2 then 1 else 0) ∧
    ∀ r : Fin 3,
      broadcast (fun k : Fin 2 => if k = 0 then (3:ℚ) else 7)
        (fun r : Fin 3 => if r = 2 then 1 else 0) r
      = (fun k : Fin 2 => if k = 0 then (3:ℚ) else 7)
        ((fun r : Fin 3 => if r = 2 then 1 else 0) r) :=
  c9_broadcast_pure _ _ _ _ rfl rfl

/-- C7, counterexample: the flatfile has records 1 and 2 but the distance
table only has a row for record 1; alignment is broken, yet payload
assembly does not fail — it builds the full payload, with the NaN row
`none` standing in for the missing record. -/
theorem c7_missing_key_builds_payload_cex :
    ([(1:ℚ), 2].any (fun k => (exCelldist.find? (fun p => p.1 == k)).isNone)
      = true) ∧
    buildStanData [(1:ℚ), 2] [10, 20] exCelldist
      = { N := 2, RC := [some [(5:ℚ)], none], Y := [10, 20] } :=
  ⟨by decide, by decide⟩

/-- C7 (amended): when the cell-distance table cannot be aligned to the
record table by record key, payload assembly still builds the full model
payload — one distance row per record, where a record whose key is absent
from the distance table gets the NaN row `none` (it does not fail, it
silently continues). -/
theorem c7_reindex_fills_missing_amended (flatKeys y : List ℚ)
    (celldist : List (ℚ × List ℚ)) (i : Fin flatKeys.length) :
    (buildStanData flatKeys y celldist).N = flatKeys.length ∧
    (buildStanData flatKeys y celldist).RC.length = flatKeys.length ∧
    (buildStanData flatKeys y celldist).RC.getD i none
      = (celldist.find? (fun p => p.1 == flatKeys.get i)).map Prod.snd := by
  refine ⟨rfl, by simp [buildStanData, reindexRows], ?_⟩
  simp only [buildStanData, reindexRows, List.getD_eq_getElem?_getD,
    List.getElem?_map]
  rw [List.getElem?_eq_getElem i.2]
  simp [List.get_eq_getElem]

/-- C8, counterexample: a flatfile whose index is not yet `rsn` is changed
by the preprocessing step (`set_index(..., inplace=True)`): the caller's
table is mutated, so the inputs are not left unchanged. -/
theorem c8_inputs_mutated_cex :
    preprocessByKey "rsn" exFlatfile ≠ exFlatfile := by decide

/-- C8 (amended): an input table already indexed by its key column is left
unchanged, but a table not yet indexed by it is mutated in place —
the key column becomes the index and is removed from the columns. -/
theorem c8_conditional_mutation_amended (key : String) (df : PDFrame) :
    (df.indexName = some key → preprocessByKey key df = df) ∧
    (df.indexName ≠ some key →
      preprocessByKey key df
        = { indexName := some key
            indexVals := ((df.cols.find? (fun p => p.1 == key)).map Prod.snd).getD []
            cols := df.cols.filter (fun p => !(p.1 == key)) }) := by
  constructor
  · intro h
    simp [preprocessByKey, h]
  · intro h
    simp [preprocessByKey, h, setIndexInplace]

/-- Witness for C8's amended statement: the not-yet-indexed example table
is rewritten to its indexed form. -/
theorem c8_conditional_mutation_witness :
    preprocessByKey "rsn" exFlatfile
      = { indexName := some "rsn"
          indexVals := ((exFlatfile.cols.find? (fun p => p.1 == "rsn")).map Prod.snd).getD []
          cols := exFlatfile.cols.filter (fun p => !(p.1 == "rsn")) } :=
  (c8_conditional_mutation_amended "rsn" exFlatfile).2 (by decide)

/-- Helper for C10: in a cell-metadata table whose `cellid` labels are the
row positions shifted by `k`, label lookup of `v + k` finds exactly row
`v`. -/
theorem find_cellid_shifted (l : List CellRow) (k v : ℕ)
    (h : ∀ j : Fin l.length, (l.get j).cellid = j + k) (hv : v < l.length) :
    l.find? (fun r => r.cellid == v + k) = some (l.get ⟨v, hv⟩) := by
  induction l generalizing k v with
  | nil => exact absurd hv (Nat.not_lt_zero v)
  | cons a t ih =>
    have ha : a.cellid = k := by
      have h0 := h ⟨0, Nat.succ_pos t.length⟩
      simpa using h0
    cases v with
    | zero =>
      rw [List.find?_cons_of_pos _ (by simp [ha])]
      rfl
    | succ v' =>
      rw [List.find?_cons_of_neg _ (by simp [ha])]
      have ht : ∀ j : Fin t.length, (t.get j).cellid = j + (k + 1) := by
        intro j
        have hj := h ⟨(j : ℕ) + 1, Nat.succ_lt_succ j.2⟩
        simp only [List.get_cons_succ] at hj
        have hj' : (t.get j).cellid = (j : ℕ) + 1 + k := hj
        omega
      have hrec := ih (k + 1) v' ht (Nat.lt_of_succ_lt_succ hv)
      have harg : v' + 1 + k = v' + (k + 1) := by omega
      rw [harg]
      exact hrec

/-- C10: if every `cellid` label equals its row's 0-based position, the
valid-cell coordinate matrix `X_c` is row-aligned with the valid-cell
distance columns (row `j` holds the midpoint of the `j`-th retained cell);
and on a table whose labels differ from the positions the label-based
lookup breaks that alignment (swapped labels return swapped midpoints). -/
theorem c10_xcells_label_alignment :
    (∀ (rows : List CellRow) (k : ℕ) (D : Fin k → Fin rows.length → ℚ),
      (∀ j : Fin rows.length, (rows.get j).cellid = j) →
      X_cells_valid rows D
        = (i_cells_valid D).map
            (fun j => some ((rows.get j).mptX, (rows.get j).mptY))) ∧
    X_cells_valid exCellRowsSwapped exDistSwapped
      ≠ (i_cells_valid exDistSwapped).map
          (fun j => some ((exCellRowsSwapped.get j).mptX,
                          (exCellRowsSwapped.get j).mptY)) := by
  constructor
  · intro rows k D hid
    unfold X_cells_valid
    apply List.map_congr_left
    intro j _
    unfold locMpt
    have h' : ∀ jj : Fin rows.length, (rows.get jj).cellid = jj + 0 := by
      simpa using hid
    rw [show ((j : ℕ)) = (j : ℕ) + 0 from (Nat.add_zero _).symm,
      find_cellid_shifted rows 0 j h' j.2]
    rfl
  · have hsum : ∀ c : Fin (exCellRowsSwapped.length), colSum exDistSwapped c = 1 := by
      intro c
      simp [colSum, exDistSwapped]
    have hvalid : i_cells_valid exDistSwapped
        = [⟨0, by decide⟩, ⟨1, by decide⟩] := by
      simp only [i_cells_valid, hsum]
      decide
    unfold X_cells_valid
    rw [hvalid]
    decide

/-- Witness for C10 on the aligned example table: with `cellid` labels
equal to positions the coordinate rows follow the retained cells. -/
theorem c10_xcells_label_alignment_witness :
    X_cells_valid exCellRowsAligned exDistAligned
      = (i_cells_valid exDistAligned).map
          (fun j => some ((exCellRowsAligned.get j).mptX,
                          (exCellRowsAligned.get j).mptY)) :=
  c10_xcells_label_alignment.1 exCellRowsAligned 1 exDistAligned (by decide)

/-- Witness for C4 on the two-cell example: exactly the strictly-positive
column is retained. -/
theorem c4_cell_filter_exact_witness :
    (∀ c : Fin 2, c ∈ i_cells_valid exDistC4 ↔ 0 < colSum exDistC4 c) ∧
    (i_cells_valid exDistC4).Pairwise (· < ·) :=
  c4_cell_filter_exact exDistC4

end NGMM
